import Mathlib

/- Verification of the zcashd Berkeley-DB wallet-dump record decoder
   (src/bdb_parser/main.py) against its natural-language specification.

   Python strings are embedded as lists of characters (`PyS`), Python byte
   strings as lists of naturals below 256, and each fallible Python helper
   as an explicit `Option`/`Except` returning function.  Code paths on which
   a Python exception escapes a function are the `Except.error`/`Option.none`
   results; a `try/except` block of the source becomes a total function with
   the fallback value of the `except` clause. -/

/-- PyS is the embedding of a Python `str`: an ordered sequence of characters. -/
abbrev PyS := List Char

/-- Characters treated as whitespace by `str.strip()` and `int()` on the ASCII
range (the Unicode-only whitespace code points never occur in the inputs of
any theorem below). -/
def isPyWs (c : Char) : Bool :=
  c = ' ' || c = '\t' || c = '\n' || c = '\r' || c = '\x0b' || c = '\x0c'

/-- Hexadecimal digit characters, both cases, as accepted by `int(_, 16)`,
`binascii.unhexlify` and `bytearray.fromhex`. -/
def isHexDigitChar (c : Char) : Bool :=
  ('0' ≤ c && c ≤ '9') || ('a' ≤ c && c ≤ 'f') || ('A' ≤ c && c ≤ 'F')

/-- Numeric value of a hexadecimal digit character. -/
def hexVal (c : Char) : Nat :=
  if c ≤ '9' then c.toNat - 48 else if c ≤ 'F' then c.toNat - 55 else c.toNat - 87

/-- Lowercase hexadecimal digit character of a value below 16, as produced by
`bytes.hex()`. -/
def hexDigitChar (n : Nat) : Char :=
  if n < 10 then Char.ofNat (48 + n) else Char.ofNat (87 + n)

/-- Embedding of Python `s.strip()`: remove leading and trailing whitespace. -/
def pyStrip (s : PyS) : PyS :=
  ((s.dropWhile isPyWs).reverse.dropWhile isPyWs).reverse

/-- Clamp one bound of a Python slice `s[a:b]` to `[0, len]`, counting negative
indices from the end of the sequence. -/
def pyBound (len : Nat) (i : Int) : Nat :=
  if i < 0 then (i + len).toNat else min i.toNat len

/-- Embedding of the Python string slice `s[a:b]`. -/
def pySlice (s : PyS) (a b : Int) : PyS :=
  (s.take (pyBound s.length b)).drop (pyBound s.length a)

/-- Embedding of the Python string slice `s[a:]`. -/
def pySliceFrom (s : PyS) (a : Int) : PyS :=
  s.drop (pyBound s.length a)

/-- Embedding of the Python list slice `l[a:]` (used for `lines[i:]`). -/
def pyListFrom (l : List PyS) (a : Int) : List PyS :=
  l.drop (pyBound l.length a)

/-- Embedding of Python list indexing `l[i]`: a negative index counts from the
end, an out-of-range index is an `IndexError`, embedded as `none`. -/
def pyIndex (l : List PyS) (i : Int) : Option PyS :=
  let j : Int := if i < 0 then i + l.length else i
  if j < 0 then Option.none else l.get? j.toNat

/-- Embedding of `binascii.unhexlify`: an even run of hexadecimal digits decodes
to bytes, anything else is a `binascii.Error` (embedded as `none`). -/
def pyUnhexlify : PyS → Option (List Nat)
  | [] => some []
  | [_] => Option.none
  | a :: b :: rest =>
    if isHexDigitChar a && isHexDigitChar b then
      (pyUnhexlify rest).map (fun bs => (hexVal a * 16 + hexVal b) :: bs)
    else Option.none

/-- Embedding of `bytearray.fromhex`: like `unhexlify` but space characters are
skipped (no theorem below feeds it a string containing whitespace, so the
version-dependent fine print of where Python allows the spaces is immaterial). -/
def pyFromhex (s : PyS) : Option (List Nat) :=
  pyUnhexlify (s.filter (fun c => c != ' '))

/-- Decode one UTF-8 sequence starting at lead byte `b` with the following
bytes `rest`; return the decoded character (or `none` for a malformed
sequence, which `errors="ignore"` drops) and how many bytes of `rest`
belong to the sequence, following the maximal-subpart convention of the
CPython decoder. -/
def utf8Step (b : Nat) (rest : List Nat) : Option Char × Nat :=
  if b < 0x80 then (some (Char.ofNat b), 0)
  else if b < 0xC2 then (Option.none, 0)
  else if b ≤ 0xDF then
    match rest with
    | b1 :: _ =>
      if 0x80 ≤ b1 && b1 ≤ 0xBF then
        (some (Char.ofNat ((b - 0xC0) * 64 + (b1 - 0x80))), 1)
      else (Option.none, 0)
    | [] => (Option.none, 0)
  else if b ≤ 0xEF then
    let lo1 := if b = 0xE0 then 0xA0 else 0x80
    let hi1 := if b = 0xED then 0x9F else 0xBF
    match rest with
    | b1 :: rest1 =>
      if lo1 ≤ b1 && b1 ≤ hi1 then
        match rest1 with
        | b2 :: _ =>
          if 0x80 ≤ b2 && b2 ≤ 0xBF then
            (some (Char.ofNat ((b - 0xE0) * 4096 + (b1 - 0x80) * 64 + (b2 - 0x80))), 2)
          else (Option.none, 1)
        | [] => (Option.none, 1)
      else (Option.none, 0)
    | [] => (Option.none, 0)
  else if b ≤ 0xF4 then
    let lo1 := if b = 0xF0 then 0x90 else 0x80
    let hi1 := if b = 0xF4 then 0x8F else 0xBF
    match rest with
    | b1 :: rest1 =>
      if lo1 ≤ b1 && b1 ≤ hi1 then
        match rest1 with
        | b2 :: rest2 =>
          if 0x80 ≤ b2 && b2 ≤ 0xBF then
            match rest2 with
            | b3 :: _ =>
              if 0x80 ≤ b3 && b3 ≤ 0xBF then
                (some (Char.ofNat
                  ((b - 0xF0) * 262144 + (b1 - 0x80) * 4096 + (b2 - 0x80) * 64 + (b3 - 0x80))), 3)
              else (Option.none, 2)
            | [] => (Option.none, 2)
          else (Option.none, 1)
        | [] => (Option.none, 1)
      else (Option.none, 0)
    | [] => (Option.none, 0)
  else (Option.none, 0)

/-- Worker for `utf8DecodeIgnore`: the fuel only bounds the recursion depth and
is always at least the length of the byte list at the call site, so it never
runs out (each step consumes the lead byte and `k` further bytes). -/
def utf8DecodeIgnoreF : Nat → List Nat → List Char
  | 0, _ => []
  | _ + 1, [] => []
  | fuel + 1, b :: rest =>
    match utf8Step b rest with
    | (some c, k) => c :: utf8DecodeIgnoreF fuel (rest.drop k)
    | (Option.none, k) => utf8DecodeIgnoreF fuel (rest.drop k)

/-- Embedding of `bytes.decode("utf-8", errors="ignore")`: malformed sequences
are dropped, everything else decodes normally. -/
def utf8DecodeIgnore (bs : List Nat) : List Char :=
  utf8DecodeIgnoreF bs.length bs

/-- Characters accepted by the printable-text check of `hex_to_ascii`:
printable ASCII (0x20 to 0x7E) or one of newline, tab, carriage return. -/
def isAllowedAscii (c : Char) : Bool :=
  (32 ≤ c.toNat && c.toNat ≤ 126) || c = '\n' || c = '\t' || c = '\r'

/-- Embedding of `hex_to_ascii` (main.py lines 151-161): unhexlify the input,
decode the bytes as UTF-8 ignoring malformed sequences, and return the
stripped text when every decoded character is printable ASCII or one of
newline, tab and carriage return; return `None` otherwise, including on a
`binascii.Error`. -/
def hex_to_ascii (hex_string : PyS) : Option PyS :=
  match pyUnhexlify hex_string with
  | Option.none => Option.none
  | some bs =>
    let ascii_text := utf8DecodeIgnore bs
    if ascii_text.all isAllowedAscii then some (pyStrip ascii_text) else Option.none

/-- Digits-with-underscores tail of a Python integer literal: after the first
digit, each further digit may be preceded by a single underscore. -/
def hexCore : List Char → Nat → Option Nat
  | [], acc => some acc
  | '_' :: rest, acc =>
    match rest with
    | c :: rest2 =>
      if isHexDigitChar c then hexCore rest2 (acc * 16 + hexVal c) else Option.none
    | [] => Option.none
  | c :: rest, acc =>
    if isHexDigitChar c then hexCore rest (acc * 16 + hexVal c) else Option.none

/-- Embedding of Python `int(s, 16)`: optional surrounding whitespace, optional
sign, optional `0x`/`0X` prefix (itself optionally followed by one
underscore), then hexadecimal digits with single underscores allowed between
digits.  A `ValueError` is embedded as `none`. -/
def pyIntHexCore (t1 : PyS) : Option Nat :=
  let t2 : PyS :=
    match t1 with
    | '0' :: c :: r =>
      if c = 'x' || c = 'X' then
        (match r with | '_' :: r2 => r2 | _ => r)
      else t1
    | _ => t1
  match t2 with
  | [] => Option.none
  | c :: rest => if isHexDigitChar c then hexCore rest (hexVal c) else Option.none

/-- Sign-and-whitespace wrapper of the embedding of Python `int(s, 16)`. -/
def pyIntHex (s : PyS) : Option Int :=
  let t0 := pyStrip s
  match t0 with
  | '-' :: r => (pyIntHexCore r).map (fun n => -(n : Int))
  | '+' :: r => (pyIntHexCore r).map (fun n => (n : Int))
  | _ => (pyIntHexCore t0).map (fun n => (n : Int))

/-- Line-break characters recognised by Python `str.splitlines`. -/
def isLineBreak (c : Char) : Bool :=
  c = '\n' || c = '\r' || c = '\x0b' || c = '\x0c' ||
  c = '\x1c' || c = '\x1d' || c = '\x1e' || c = '\x85' || c = '\u2028' || c = '\u2029'

/-- Worker for `pySplitlines`, carrying the current line in reverse. -/
def splitlinesGo : List Char → List Char → List PyS
  | [], acc => if acc.isEmpty then [] else [acc.reverse]
  | '\r' :: '\n' :: rest, acc => acc.reverse :: splitlinesGo rest []
  | c :: rest, acc =>
    if isLineBreak c then acc.reverse :: splitlinesGo rest []
    else splitlinesGo rest (c :: acc)

/-- Embedding of Python `str.splitlines()`. -/
def pySplitlines (s : PyS) : List PyS :=
  splitlinesGo s []

/-- Big-endian interpretation of a byte string, `int.from_bytes(bs, "big")`. -/
def beNat (bs : List Nat) : Nat :=
  bs.foldl (fun acc b => acc * 256 + b) 0

/-- Little-endian interpretation of a byte string, `int.from_bytes(bs, "little")`. -/
def leNat (bs : List Nat) : Nat :=
  beNat bs.reverse

/-- Lowercase hexadecimal rendering of a byte string, `bytes.hex()`. -/
def bytesToHexLower : List Nat → PyS
  | [] => []
  | b :: rest => hexDigitChar (b / 16) :: hexDigitChar (b % 16) :: bytesToHexLower rest

/-- PyVal embeds the dynamically typed Python values that flow through the
decoders: `None`, integers, strings, lists and string-keyed dictionaries. -/
inductive PyVal where
  | none : PyVal
  | int (n : Int) : PyVal
  | str (s : PyS) : PyVal
  | list (xs : List PyVal) : PyVal
  | dict (entries : List (String × PyVal)) : PyVal

/-- DecResult embeds the dictionaries `{"lines": ..., "value": ...}` returned
by every typed decoder of the source. -/
structure DecResult where
  lines : Nat
  value : PyVal

/-- DumpEntry embeds the dictionaries appended to `results` by `analyze_dump`
(main.py lines 242-249), with fields in source order:
`key`, `key_ascii`, `value`, `parsed_value`. -/
structure DumpEntry where
  key : PyVal
  key_ascii : Option PyS
  value : PyVal
  parsed_value : PyVal

/-- Compressed secp256k1 public key length (main.py line 7). -/
def PUBLIC_KEY_LEN : Nat := 33

/-- secp256k1 private key length (main.py line 8). -/
def PRIVATE_KEY_LEN : Nat := 32

/-- Modelled from the spec: the order of the secp256k1 group, the bound the
external "parse private-key scalar" primitive (spec section 6) enforces on a
raw scalar.  The primitive itself is the `secp256k1` library, absent from
src/. -/
def secpOrder : Nat :=
  0xfffffffffffffffffffffffffffffffebaaedce6af48a03bbfd25e8cd0364141

/-- Modelled from the spec: validity of a byte string as a compressed public
key for the external `parse_public_key_point` primitive (spec section 6 and
glossary: a compressed public key is the 33-byte encoding, prefix byte 02 or
03 plus x-coordinate).  The on-curve check the secp256k1 library performs on
the x-coordinate is abstracted away; every key in the theorems below is one
of the known-valid keys of the bundled example dump. -/
def isCompressedPubKey (b : List Nat) : Bool :=
  (b.length == PUBLIC_KEY_LEN) && (b.headD 0 == 2 || b.headD 0 == 3) &&
    b.all (fun x => x < 256)

/-- Modelled from the spec: the external `parse_public_key_point` primitive
(spec section 6), i.e. `PublicKey(raw, raw=True)` of the secp256k1 library,
which is not part of src/.  It accepts a valid compressed key and rejects
everything else. -/
def parsePublicKeyPoint (b : List Nat) : Option (List Nat) :=
  if isCompressedPubKey b then some b else Option.none

/-- Modelled from the spec: `serialize_compressed` of a parsed compressed
public key returns exactly the 33 bytes it was parsed from (spec section 6:
the primitive exposes a canonical compressed re-serialization). -/
def serializeCompressed (k : List Nat) : List Nat := k

/-- Modelled from the spec: the external `parse_private_key_scalar` primitive
(spec section 6), i.e. `PrivateKey(raw, raw=True)` of the secp256k1 library,
absent from src/: a raw scalar is accepted when it is 32 bytes long and in
the range `[1, group order)`. -/
def parsePrivateKeyScalar (b : List Nat) : Option (List Nat) :=
  if b.length == PRIVATE_KEY_LEN && 0 < beNat b && beNat b < secpOrder then some b
  else Option.none

/-- Modelled from the spec: `serialize()` of a parsed private key returns its
canonical serialization, the lowercase hex string of the 32 scalar bytes. -/
def privSerialize (k : List Nat) : PyS := bytesToHexLower k

/-- Body of the `try` block of `parse_key_key` (main.py lines 12-19); `none` is
an exception reaching the `except` clause.  On success the produced `value`
is the hex string of the compressed re-serialization of the public key read
from the line after the length-prefixed name and the key length byte. -/
def parse_key_key_try (lines : List PyS) : Option PyS :=
  match lines.head? with
  | Option.none => Option.none
  | some l0 =>
    let key_line := pyStrip l0
    match pyIntHex (pySlice key_line 0 2) with
    | Option.none => Option.none
    | some name_len =>
      match pyFromhex (pySliceFrom key_line (name_len * 2 + 4)) with
      | Option.none => Option.none
      | some public_key_raw =>
        match parsePublicKeyPoint public_key_raw with
        | Option.none => Option.none
        | some public_key => some (bytesToHexLower (serializeCompressed public_key))

/-- Embedding of `parse_key_key` (main.py lines 11-22): the `try` body with the
`except` fallback `{"lines": 1, "value": None}`. -/
def parse_key_key (lines : List PyS) : DecResult :=
  match parse_key_key_try lines with
  | some s => ⟨1, PyVal.str s⟩
  | Option.none => ⟨1, PyVal.none⟩

/-- Body of the `try` block of `parse_key_value` (main.py lines 29-35): the
first 32 bytes of the line are handed to the private-key primitive, whose
serialization is the produced `value`. -/
def parse_key_value_try (lines : List PyS) : Option PyS :=
  match lines.head? with
  | Option.none => Option.none
  | some l0 =>
    let value_line := pyStrip l0
    match pyFromhex (pySlice value_line 0 (PRIVATE_KEY_LEN * 2)) with
    | Option.none => Option.none
    | some private_key_raw =>
      match parsePrivateKeyScalar private_key_raw with
      | Option.none => Option.none
      | some private_key => some (privSerialize private_key)

/-- Embedding of `parse_key_value` (main.py lines 25-39): the `try` body with
the fallback `{"lines": 1, "value": None}` reached on any exception. -/
def parse_key_value (lines : List PyS) : DecResult :=
  match parse_key_value_try lines with
  | some s => ⟨1, PyVal.str s⟩
  | Option.none => ⟨1, PyVal.none⟩

/-- Embedding of `parse_minversion_key` (main.py lines 42-43): a constant
`{"lines": 1, "value": ""}`. -/
def parse_minversion_key (_lines : List PyS) : DecResult :=
  ⟨1, PyVal.str []⟩

/-- Body of the `try` block of `parse_minversion_value` (main.py lines 47-50):
the stripped line parsed as a base-16 integer literal. -/
def parse_minversion_value_try (lines : List PyS) : Option Int :=
  match lines.head? with
  | Option.none => Option.none
  | some l0 => pyIntHex (pyStrip l0)

/-- Embedding of `parse_minversion_value` (main.py lines 46-53). -/
def parse_minversion_value (lines : List PyS) : DecResult :=
  match parse_minversion_value_try lines with
  | some n => ⟨1, PyVal.int n⟩
  | Option.none => ⟨1, PyVal.none⟩

/-- Body of the `try` block of `parse_pool_key` (main.py lines 57-66): the
bytes after the length-prefixed name read as a little-endian integer. -/
def parse_pool_key_try (lines : List PyS) : Option Int :=
  match lines.head? with
  | Option.none => Option.none
  | some l0 =>
    let key_line := pyStrip l0
    match pyIntHex (pySlice key_line 0 2) with
    | Option.none => Option.none
    | some name_len =>
      match pyFromhex (pySliceFrom key_line (name_len * 2 + 2)) with
      | Option.none => Option.none
      | some n_index_raw => some (leNat n_index_raw)

/-- Embedding of `parse_pool_key` (main.py lines 56-69). -/
def parse_pool_key (lines : List PyS) : DecResult :=
  match parse_pool_key_try lines with
  | some n => ⟨1, PyVal.int n⟩
  | Option.none => ⟨1, PyVal.none⟩

/-- Embedding of the `while i + 1 < len(lines)` loop of `parse_pool_value`
(main.py lines 82-111), two lines per step: `none` is an exception escaping
to the `except` clause (which discards all entries found so far), `some ks`
is normal completion with the accumulated `keys` list.  The loop breaks,
keeping its entries, when the second line of a pair does not carry the name
`keymeta`. -/
def poolLoop : List PyS → Option (List PyVal)
  | ts :: km :: rest =>
    let timestamp_line := pyStrip ts
    let keymeta_line := pyStrip km
    match pyIntHex (pySlice keymeta_line 0 2) with
    | Option.none => Option.none
    | some keymeta_name_len =>
      let keymeta_name := hex_to_ascii (pySlice keymeta_line 2 (keymeta_name_len * 2 + 2))
      if keymeta_name = some ("keymeta".data) then
        let public_key := pySliceFrom keymeta_line (keymeta_name_len * 2 + 2)
        match pyFromhex (pySlice timestamp_line 0 16) with
        | Option.none => Option.none
        | some timestamp_raw =>
          match poolLoop rest with
          | Option.none => Option.none
          | some ks =>
            some (PyVal.dict
              [("name", PyVal.str ("keymeta".data)),
               ("timestamp", PyVal.int (beNat timestamp_raw)),
               ("public_key", PyVal.str public_key)] :: ks)
      else some []
  | _ => some []

/-- Embedding of `parse_pool_value` (main.py lines 72-118): on normal loop
completion the literal `{"lines": 2, "value": keys}` is returned; an
exception anywhere in the loop reaches the trailing
`return {"lines": 1, "value": []}`. -/
def parse_pool_value (lines : List PyS) : DecResult :=
  match poolLoop lines with
  | some ks => ⟨2, PyVal.list ks⟩
  | Option.none => ⟨1, PyVal.list []⟩

/-- RegEntry embeds one entry of the `keys` registry dictionary (main.py lines
121-148): the recognised-but-inert names map to the empty dictionary, whose
missing `key_parser`/`value_parser` lookups are `KeyError`s, embedded as the
`none` fields. -/
structure RegEntry where
  keyDecoder : Option (List PyS → DecResult)
  valueDecoder : Option (List PyS → DecResult)

/-- Embedding of the lookup `keys[name]` in the registry dictionary `keys`
(main.py lines 121-148); `none` is a `KeyError`. -/
def registryLookup (name : PyS) : Option RegEntry :=
  if name = "key".data then some ⟨some parse_key_key, some parse_key_value⟩
  else if name = "name".data then some ⟨Option.none, Option.none⟩
  else if name = "pool".data then some ⟨some parse_pool_key, some parse_pool_value⟩
  else if name = "version".data then some ⟨Option.none, Option.none⟩
  else if name = "minversion".data then
    some ⟨some parse_minversion_key, some parse_minversion_value⟩
  else if name = "keymeta".data then some ⟨Option.none, Option.none⟩
  else if name = "purpose".data then some ⟨Option.none, Option.none⟩
  else if name = "bestblock".data then some ⟨Option.none, Option.none⟩
  else if name = "defaultkey".data then some ⟨Option.none, Option.none⟩
  else if name = "networkinfo".data then some ⟨Option.none, Option.none⟩
  else if name = "mnemonichdchain".data then some ⟨Option.none, Option.none⟩
  else if name = "witnesscachesize".data then some ⟨Option.none, Option.none⟩
  else if name = "bestblock_nomerkle".data then some ⟨Option.none, Option.none⟩
  else if name = "orchard_note_commitment_tree".data then some ⟨Option.none, Option.none⟩
  else Option.none

/-- Embedding of `parse_key_name` (main.py lines 201-210).  The call
`int(line[0:2], 16)` stands before the `try` block, so its `ValueError`
escapes the function: that is the `Except.error` case.  The `try` block
around `hex_to_ascii` (a function that cannot raise) collapses nothing. -/
def parse_key_name (line : PyS) : Except Unit (Option PyS) :=
  match pyIntHex (pySlice line 0 2) with
  | Option.none => Except.error ()
  | some key_name_length =>
    Except.ok (hex_to_ascii (pySlice line 2 (key_name_length * 2 + 2)))

/-- Embedding of the Python expression `parsed_value["lines"]` as used on
main.py line 237: it produces an integer only when `parsed_value` is a
dictionary with an integer under the key `"lines"`; in every other case the
subscript (or the subsequent addition) raises a `TypeError`/`KeyError`,
embedded as `none`. -/
def pyLinesField : PyVal → Option Int
  | PyVal.dict es =>
    match es.find? (fun p => p.1 == "lines") with
    | some (_, PyVal.int n) => some n
    | _ => Option.none
  | _ => Option.none

/-- Embedding of the `try`/`except` region of a loop iteration of
`analyze_dump` (main.py lines 230-241) for a registered name, together with
the entry built from the resulting `key` and `parsed_value`.  Exceptions
inside the `try` block (missing `key_parser`/`value_parser` of an inert
registry entry, and the `TypeError` of `key["lines"] +
parsed_value["lines"]` when `parsed_value` is not a dictionary) fall to the
`except` clause, which advances the cursor by 1; the appended entry still
records whatever `key` and `parsed_value` were assigned before the
exception was raised. -/
def analyzeTry (entry : RegEntry) (remaining_lines : List PyS) (i : Int) (name : PyS) :
    DumpEntry × Int :=
  match entry.keyDecoder with
  | Option.none => (⟨PyVal.none, some name, PyVal.none, PyVal.none⟩, i + 1)
  | some kp =>
    let key := kp remaining_lines
    match entry.valueDecoder with
    | Option.none => (⟨key.value, some name, PyVal.none, PyVal.none⟩, i + 1)
    | some vp =>
      let parsed_value := (vp (remaining_lines.drop 1)).value
      match pyLinesField parsed_value with
      | Option.none => (⟨key.value, some name, PyVal.none, parsed_value⟩, i + 1)
      | some l2 =>
        (⟨key.value, some name, PyVal.none, parsed_value⟩, i + (key.lines : Int) + l2)

/-- Embedding of one iteration of the `while i < len(lines)` loop of
`analyze_dump` (main.py lines 220-249), returning the appended entry and the
new cursor, or `Except.error` when the iteration raises (out-of-range
`lines[i]`, or `parse_key_name` raising on the stripped line — both stand
outside the `try` block of the iteration). -/
def analyzeIter (lines : List PyS) (i : Int) : Except Unit (DumpEntry × Int) :=
  match pyIndex lines i with
  | Option.none => Except.error ()
  | some li =>
    let line := pyStrip li
    let remaining_lines := pyListFrom lines i
    match parse_key_name line with
    | Except.error e => Except.error e
    | Except.ok key_ascii =>
      match key_ascii with
      | Option.none =>
        Except.ok (⟨PyVal.none, Option.none, PyVal.none, PyVal.none⟩, i + 1)
      | some name =>
        match registryLookup name with
        | Option.none =>
          Except.ok (⟨PyVal.none, some name, PyVal.none, PyVal.none⟩, i + 1)
        | some entry => Except.ok (analyzeTry entry remaining_lines i name)

/-- Worker for `analyze_dump`: the `while` loop with an explicit iteration
budget.  The budget only bounds the recursion depth; that the budget
`lines.length` never runs out (the `Option.none` result) is exactly the
termination property of the source loop, proved below. -/
def analyzeLoopF : Nat → List PyS → Int → Option (Except Unit (List DumpEntry))
  | 0, lines, i =>
    if i < (lines.length : Int) then Option.none else some (Except.ok [])
  | fuel2 + 1, lines, i =>
    if i < (lines.length : Int) then
      match analyzeIter lines i with
      | Except.error e => some (Except.error e)
      | Except.ok (entry, i2) =>
        match analyzeLoopF fuel2 lines i2 with
        | Option.none => Option.none
        | some (Except.error e) => some (Except.error e)
        | some (Except.ok rest) => some (Except.ok (entry :: rest))
    else some (Except.ok [])

/-- Embedding of `analyze_dump` (main.py lines 213-251): split the dump into
lines and run the cursor loop from 0.  `some (Except.ok es)` is a normal
return of the results list, `some (Except.error ())` is an exception
escaping `analyze_dump`. -/
def analyze_dump (dump : PyS) : Option (Except Unit (List DumpEntry)) :=
  analyzeLoopF (pySplitlines dump).length (pySplitlines dump) 0

/-- A (timestamp-line, keymeta-line) pair is well formed for the pool
value-decoder loop when the conditions of one successful, non-breaking loop
iteration hold: the length prefix of the stripped keymeta line parses, the
length-prefixed name decodes to `keymeta`, and the first 8 bytes of the
stripped timestamp line are valid hex.  The conditions are spelled with the
same expressions the loop body evaluates. -/
def wfPair (ts km : PyS) : Bool :=
  match pyIntHex (pySlice (pyStrip km) 0 2) with
  | Option.none => false
  | some n =>
    decide (hex_to_ascii (pySlice (pyStrip km) 2 (n * 2 + 2)) = some ("keymeta".data)) &&
    (pyFromhex (pySlice (pyStrip ts) 0 16)).isSome

/-- A keymeta line on which the pool value-decoder loop breaks without raising:
its length prefix parses but the decoded name is not `keymeta`. -/
def stopPair (km : PyS) : Bool :=
  match pyIntHex (pySlice (pyStrip km) 0 2) with
  | Option.none => false
  | some n =>
    !(decide (hex_to_ascii (pySlice (pyStrip km) 2 (n * 2 + 2)) = some ("keymeta".data)))

/-- The KeyPoolEntry dictionary the pool value-decoder builds from a well
formed pair, spelled with the same expressions the loop body evaluates. -/
def poolEntryOf (ts km : PyS) : PyVal :=
  match pyIntHex (pySlice (pyStrip km) 0 2) with
  | Option.none => PyVal.none
  | some n =>
    PyVal.dict
      [("name", PyVal.str ("keymeta".data)),
       ("timestamp", PyVal.int (beNat ((pyFromhex (pySlice (pyStrip ts) 0 16)).getD []))),
       ("public_key", PyVal.str (pySliceFrom (pyStrip km) (n * 2 + 2)))]

/-- Flatten a list of (timestamp-line, keymeta-line) pairs into the line
sequence handed to the pool value-decoder. -/
def pairsFlatten : List (PyS × PyS) → List PyS
  | [] => []
  | (ts, km) :: ps => ts :: km :: pairsFlatten ps

theorem registryCases (name : PyS) (entry : RegEntry)
    (h : registryLookup name = some entry) :
    entry = ⟨Option.none, Option.none⟩ ∨
    entry = ⟨some parse_key_key, some parse_key_value⟩ ∨
    entry = ⟨some parse_pool_key, some parse_pool_value⟩ ∨
    entry = ⟨some parse_minversion_key, some parse_minversion_value⟩ := by
  unfold registryLookup at h
  by_cases c1 : name = "key".data
  · rw [if_pos c1] at h; injection h with hv; subst hv; exact Or.inr (Or.inl rfl)
  rw [if_neg c1] at h
  by_cases c2 : name = "name".data
  · rw [if_pos c2] at h; injection h with hv; subst hv; exact Or.inl rfl
  rw [if_neg c2] at h
  by_cases c3 : name = "pool".data
  · rw [if_pos c3] at h; injection h with hv; subst hv; exact Or.inr (Or.inr (Or.inl rfl))
  rw [if_neg c3] at h
  by_cases c4 : name = "version".data
  · rw [if_pos c4] at h; injection h with hv; subst hv; exact Or.inl rfl
  rw [if_neg c4] at h
  by_cases c5 : name = "minversion".data
  · rw [if_pos c5] at h; injection h with hv; subst hv; exact Or.inr (Or.inr (Or.inr rfl))
  rw [if_neg c5] at h
  by_cases c6 : name = "keymeta".data
  · rw [if_pos c6] at h; injection h with hv; subst hv; exact Or.inl rfl
  rw [if_neg c6] at h
  by_cases c7 : name = "purpose".data
  · rw [if_pos c7] at h; injection h with hv; subst hv; exact Or.inl rfl
  rw [if_neg c7] at h
  by_cases c8 : name = "bestblock".data
  · rw [if_pos c8] at h; injection h with hv; subst hv; exact Or.inl rfl
  rw [if_neg c8] at h
  by_cases c9 : name = "defaultkey".data
  · rw [if_pos c9] at h; injection h with hv; subst hv; exact Or.inl rfl
  rw [if_neg c9] at h
  by_cases c10 : name = "networkinfo".data
  · rw [if_pos c10] at h; injection h with hv; subst hv; exact Or.inl rfl
  rw [if_neg c10] at h
  by_cases c11 : name = "mnemonichdchain".data
  · rw [if_pos c11] at h; injection h with hv; subst hv; exact Or.inl rfl
  rw [if_neg c11] at h
  by_cases c12 : name = "witnesscachesize".data
  · rw [if_pos c12] at h; injection h with hv; subst hv; exact Or.inl rfl
  rw [if_neg c12] at h
  by_cases c13 : name = "bestblock_nomerkle".data
  · rw [if_pos c13] at h; injection h with hv; subst hv; exact Or.inl rfl
  rw [if_neg c13] at h
  by_cases c14 : name = "orchard_note_commitment_tree".data
  · rw [if_pos c14] at h; injection h with hv; subst hv; exact Or.inl rfl
  rw [if_neg c14] at h
  exact Option.noConfusion h

theorem pyLinesField_parse_key_value (ls : List PyS) :
    pyLinesField (parse_key_value ls).value = Option.none := by
  unfold parse_key_value
  split <;> rfl

theorem pyLinesField_parse_minversion_value (ls : List PyS) :
    pyLinesField (parse_minversion_value ls).value = Option.none := by
  unfold parse_minversion_value
  split <;> rfl

theorem pyLinesField_parse_pool_value (ls : List PyS) :
    pyLinesField (parse_pool_value ls).value = Option.none := by
  unfold parse_pool_value
  split <;> rfl

theorem analyzeTry_shape (name : PyS) (entry : RegEntry) (rem : List PyS) (i : Int)
    (h : registryLookup name = some entry) :
    (analyzeTry entry rem i name).2 = i + 1 ∧
    (analyzeTry entry rem i name).1.value = PyVal.none := by
  rcases registryCases name entry h with rfl | rfl | rfl | rfl
  · exact ⟨rfl, rfl⟩
  · unfold analyzeTry
    simp [pyLinesField_parse_key_value]
  · unfold analyzeTry
    simp [pyLinesField_parse_pool_value]
  · unfold analyzeTry
    simp [pyLinesField_parse_minversion_value]

theorem analyzeIter_ok (lines : List PyS) (i : Int) (e : DumpEntry) (i2 : Int)
    (h : analyzeIter lines i = Except.ok (e, i2)) :
    i2 = i + 1 ∧ e.value = PyVal.none := by
  unfold analyzeIter at h
  cases hidx : pyIndex lines i with
  | none => rw [hidx] at h; exact Except.noConfusion h
  | some li =>
    rw [hidx] at h
    simp only at h
    cases hkn : parse_key_name (pyStrip li) with
    | error u => rw [hkn] at h; exact Except.noConfusion h
    | ok ka =>
      rw [hkn] at h
      simp only at h
      cases ka with
      | none =>
        injection h with h1
        injection h1 with h2 h3
        exact ⟨h3.symm, h2 ▸ rfl⟩
      | some name =>
        simp only at h
        cases hreg : registryLookup name with
        | none =>
          rw [hreg] at h
          injection h with h1
          injection h1 with h2 h3
          exact ⟨h3.symm, h2 ▸ rfl⟩
        | some entry =>
          rw [hreg] at h
          simp only at h
          injection h with h1
          obtain ⟨hsnd, hval⟩ := analyzeTry_shape name entry (pyListFrom lines i) i hreg
          rw [h1] at hsnd hval
          exact ⟨hsnd, hval⟩

theorem analyzeLoopF_zero (lines : List PyS) (i : Int) :
    analyzeLoopF 0 lines i =
      if i < (lines.length : Int) then Option.none else some (Except.ok []) :=
  rfl

theorem analyzeLoopF_succ (fuel : Nat) (lines : List PyS) (i : Int) :
    analyzeLoopF (fuel + 1) lines i =
      if i < (lines.length : Int) then
        match analyzeIter lines i with
        | Except.error e => some (Except.error e)
        | Except.ok (entry, i2) =>
          match analyzeLoopF fuel lines i2 with
          | Option.none => Option.none
          | some (Except.error e) => some (Except.error e)
          | some (Except.ok rest) => some (Except.ok (entry :: rest))
      else some (Except.ok []) :=
  rfl

theorem analyzeLoopF_isSome (fuel : Nat) :
    ∀ (lines : List PyS) (k : Nat), lines.length ≤ k + fuel →
    (analyzeLoopF fuel lines (k : Int)).isSome = true := by
  induction fuel with
  | zero =>
    intro lines k hk
    rw [analyzeLoopF_zero, if_neg]
    · rfl
    · omega
  | succ fuel ih =>
    intro lines k hk
    rw [analyzeLoopF_succ]
    by_cases hlt : (k : Int) < (lines.length : Int)
    · rw [if_pos hlt]
      cases hstep : analyzeIter lines (k : Int) with
      | error e => rfl
      | ok pr =>
        obtain ⟨entry, i2⟩ := pr
        have h12 := (analyzeIter_ok lines (k : Int) entry i2 hstep).1
        have hcast : i2 = ((k + 1 : Nat) : Int) := by
          rw [h12]
          push_cast
          ring
        have hih := ih lines (k + 1) (by omega)
        dsimp only
        rw [hcast]
        cases hres : analyzeLoopF fuel lines ((k + 1 : Nat) : Int) with
        | none =>
          rw [hres] at hih
          simp at hih
        | some r =>
          cases r with
          | error e => rfl
          | ok es => rfl
    · rw [if_neg hlt]
      rfl

theorem analyzeLoopF_ok (fuel : Nat) :
    ∀ (lines : List PyS) (k : Nat) (es : List DumpEntry),
    analyzeLoopF fuel lines (k : Int) = some (Except.ok es) →
    (∀ x ∈ es, x.value = PyVal.none) ∧ es.length = lines.length - k := by
  induction fuel with
  | zero =>
    intro lines k es h
    rw [analyzeLoopF_zero] at h
    by_cases hlt : (k : Int) < (lines.length : Int)
    · rw [if_pos hlt] at h
      exact Option.noConfusion h
    · rw [if_neg hlt] at h
      injection h with h1
      injection h1 with h2
      subst h2
      refine ⟨fun x hx => absurd hx (List.not_mem_nil x), ?_⟩
      have : lines.length ≤ k := by
        omega
      simp
      omega
  | succ fuel ih =>
    intro lines k es h
    rw [analyzeLoopF_succ] at h
    by_cases hlt : (k : Int) < (lines.length : Int)
    · rw [if_pos hlt] at h
      cases hstep : analyzeIter lines (k : Int) with
      | error e =>
        rw [hstep] at h
        simp only at h
        injection h with h1
        exact Except.noConfusion h1
      | ok pr =>
        obtain ⟨entry, i2⟩ := pr
        rw [hstep] at h
        simp only at h
        obtain ⟨h12, hval⟩ := analyzeIter_ok lines (k : Int) entry i2 hstep
        have hcast : i2 = ((k + 1 : Nat) : Int) := by
          rw [h12]
          push_cast
          ring
        rw [hcast] at h
        cases hres : analyzeLoopF fuel lines ((k + 1 : Nat) : Int) with
        | none =>
          rw [hres] at h
          exact Option.noConfusion h
        | some r =>
          rw [hres] at h
          cases r with
          | error e =>
            injection h with h1
            exact Except.noConfusion h1
          | ok rest =>
            injection h with h1
            injection h1 with h2
            subst h2
            obtain ⟨hv, hlen⟩ := ih lines (k + 1) rest hres
            refine ⟨?_, ?_⟩
            · intro x hx
              rcases List.mem_cons.mp hx with rfl | hx2
              · exact hval
              · exact hv x hx2
            · have hkl : k < lines.length := by exact_mod_cast hlt
              simp only [List.length_cons, hlen]
              omega
    · rw [if_neg hlt] at h
      injection h with h1
      injection h1 with h2
      subst h2
      refine ⟨fun x hx => absurd hx (List.not_mem_nil x), ?_⟩
      have : lines.length ≤ k := by
        omega
      simp
      omega

theorem dropWhile_ws_eq_self (l : PyS) (h : ∀ c ∈ l, isPyWs c = false) :
    l.dropWhile isPyWs = l := by
  cases l with
  | nil => rfl
  | cons a t =>
    rw [List.dropWhile_cons, h a (List.mem_cons_self a t)]
    simp

theorem pyStrip_of_no_ws (s : PyS) (h : ∀ c ∈ s, isPyWs c = false) : pyStrip s = s := by
  unfold pyStrip
  rw [dropWhile_ws_eq_self s h]
  rw [dropWhile_ws_eq_self s.reverse (fun c hc => h c (List.mem_reverse.mp hc))]
  exact List.reverse_reverse s

theorem pyBound_ofNat (len n : Nat) : pyBound len (n : Int) = min n len := by
  unfold pyBound
  rw [if_neg (by omega)]
  omega

theorem take_min_length (s : PyS) (n : Nat) : s.take (min n s.length) = s.take n := by
  rcases le_total n s.length with h | h
  · rw [min_eq_left h]
  · rw [min_eq_right h, List.take_length]
    exact (List.take_of_length_le h).symm

theorem drop_min_length (s : PyS) (n : Nat) : s.drop (min n s.length) = s.drop n := by
  rcases le_total n s.length with h | h
  · rw [min_eq_left h]
  · rw [min_eq_right h, List.drop_length]
    exact (List.drop_eq_nil_of_le h).symm

theorem pySlice_zero (s : PyS) (n : Nat) : pySlice s 0 (n : Int) = s.take n := by
  unfold pySlice
  have h0 : pyBound s.length 0 = 0 := by
    unfold pyBound
    rw [if_neg (by omega)]
    omega
  rw [h0, pyBound_ofNat, List.drop_zero, take_min_length]

theorem pySliceFrom_ofNat (s : PyS) (n : Nat) : pySliceFrom s (n : Int) = s.drop n := by
  unfold pySliceFrom
  rw [pyBound_ofNat, drop_min_length]

theorem hexDigitChar_isHex : ∀ n, n < 16 → isHexDigitChar (hexDigitChar n) = true := by
  decide

theorem hexVal_hexDigitChar : ∀ n, n < 16 → hexVal (hexDigitChar n) = n := by
  decide

theorem hexDigitChar_ne_space : ∀ n, n < 16 → (hexDigitChar n != ' ') = true := by
  decide

theorem hexDigitChar_not_ws : ∀ n, n < 16 → isPyWs (hexDigitChar n) = false := by
  decide

theorem mem_bytesToHexLower (bs : List Nat) (hb : ∀ b ∈ bs, b < 256) :
    ∀ c ∈ bytesToHexLower bs, ∃ m, m < 16 ∧ c = hexDigitChar m := by
  induction bs with
  | nil =>
    intro c hc
    exact absurd hc (List.not_mem_nil c)
  | cons b t ih =>
    intro c hc
    have hb0 : b < 256 := hb b (List.mem_cons_self b t)
    have hdiv : b / 16 < 16 := by omega
    have hmod : b % 16 < 16 := by omega
    simp only [bytesToHexLower] at hc
    rcases List.mem_cons.mp hc with rfl | hc2
    · exact ⟨b / 16, hdiv, rfl⟩
    rcases List.mem_cons.mp hc2 with rfl | hc3
    · exact ⟨b % 16, hmod, rfl⟩
    · exact ih (fun x hx => hb x (List.mem_cons_of_mem b hx)) c hc3

theorem pyUnhexlify_bytesToHexLower (bs : List Nat) (hb : ∀ b ∈ bs, b < 256) :
    pyUnhexlify (bytesToHexLower bs) = some bs := by
  induction bs with
  | nil => rfl
  | cons b t ih =>
    have hb0 : b < 256 := hb b (List.mem_cons_self b t)
    have hdiv : b / 16 < 16 := by omega
    have hmod : b % 16 < 16 := by omega
    have hrec := ih (fun x hx => hb x (List.mem_cons_of_mem b hx))
    simp only [bytesToHexLower, pyUnhexlify, hexDigitChar_isHex _ hdiv,
      hexDigitChar_isHex _ hmod, hexVal_hexDigitChar _ hdiv, hexVal_hexDigitChar _ hmod,
      Bool.and_self, if_true, hrec, Option.map_some']
    have : b / 16 * 16 + b % 16 = b := by omega
    rw [this]

theorem filter_bytesToHexLower (bs : List Nat) (hb : ∀ b ∈ bs, b < 256) :
    (bytesToHexLower bs).filter (fun c => c != ' ') = bytesToHexLower bs := by
  apply List.filter_eq_self.mpr
  intro c hc
  obtain ⟨m, hm, rfl⟩ := mem_bytesToHexLower bs hb c hc
  exact hexDigitChar_ne_space m hm

theorem pyFromhex_bytesToHexLower (bs : List Nat) (hb : ∀ b ∈ bs, b < 256) :
    pyFromhex (bytesToHexLower bs) = some bs := by
  unfold pyFromhex
  rw [filter_bytesToHexLower bs hb]
  exact pyUnhexlify_bytesToHexLower bs hb

/-- C1 counterexample: the claim promises that on every iteration the cursor
advances by at least 1 and decoding completes for arbitrarily corrupted
input, but on the single line `zz` the first iteration raises (the
`ValueError` of `int("zz", 16)` escapes `parse_key_name` and the loop) and
`analyze_dump` aborts with an exception instead of completing. -/
theorem C1_cursor_counterexample :
    analyzeIter ["zz".data] 0 = Except.error () ∧
    analyze_dump ("zz".data) = some (Except.error ()) :=
  ⟨rfl, rfl⟩

/-- C1 (amended): every iteration of the cursor loop either raises — aborting
the whole decode at once — or advances the cursor by exactly 1; hence the
loop never needs more than `len(lines)` iterations (the iteration budget
`lines.length` is never exhausted) and on a normal return the result holds
at most one entry per line. -/
theorem C1_cursor_termination :
    (∀ (lines : List PyS) (i : Int),
      analyzeIter lines i = Except.error () ∨
      ∃ e, analyzeIter lines i = Except.ok (e, i + 1)) ∧
    (∀ dump : PyS, (analyze_dump dump).isSome = true) ∧
    (∀ (dump : PyS) (es : List DumpEntry),
      analyze_dump dump = some (Except.ok es) → es.length ≤ (pySplitlines dump).length) := by
  refine ⟨?_, ?_, ?_⟩
  · intro lines i
    cases hstep : analyzeIter lines i with
    | error e =>
      cases e
      exact Or.inl rfl
    | ok pr =>
      obtain ⟨e, i2⟩ := pr
      have h12 := (analyzeIter_ok lines i e i2 hstep).1
      subst h12
      exact Or.inr ⟨e, rfl⟩
  · intro dump
    exact analyzeLoopF_isSome (pySplitlines dump).length (pySplitlines dump) 0 (by omega)
  · intro dump es h
    have := (analyzeLoopF_ok (pySplitlines dump).length (pySplitlines dump) 0 es h).2
    omega

/-- C1 witness: the amended forward-progress and termination facts instantiated
on the concrete one-line dump `00`. -/
theorem C1_cursor_termination_witness :
    (analyzeIter ["00".data] 0 = Except.error () ∨
      ∃ e, analyzeIter ["00".data] 0 = Except.ok (e, (0 : Int) + 1)) ∧
    (analyze_dump ("00".data)).isSome = true ∧
    ([(⟨PyVal.none, some [], PyVal.none, PyVal.none⟩ : DumpEntry)]).length ≤
      (pySplitlines ("00".data)).length :=
  ⟨C1_cursor_termination.1 ["00".data] 0, C1_cursor_termination.2.1 ("00".data),
   C1_cursor_termination.2.2 ("00".data) _ rfl⟩

/-- C2: evaluation of the code at the failing inputs.  `parse_key_name` raises
on the line `zz` and on the empty line (the `int(line[0:2], 16)` call stands
before its `try` block), and one such malformed line halts the decode of a
whole dump, contradicting the never-raises / never-halts claim. -/
theorem C2_parse_key_name_raises :
    parse_key_name ("zz".data) = Except.error () ∧
    parse_key_name ([] : PyS) = Except.error () ∧
    analyze_dump ("00\nzz\n00".data) = some (Except.error ()) :=
  ⟨rfl, rfl, rfl⟩

/-- C3: evaluation of the code at the failing input, a correctly framed
two-line `minversion` record.  The key-decoder and value-decoder each report
1 consumed line (sum 2), yet the loop advances the cursor by exactly 1:
the increment `i += key["lines"] + parsed_value["lines"]` always raises a
`TypeError` because line 233 already extracted `["value"]`, so the `except`
clause advances by 1 instead. -/
theorem C3_cursor_advance :
    analyzeIter ["0a6d696e76657273696f6e".data, "60ea0000".data] 0 =
      Except.ok
        (⟨PyVal.str [], some ("minversion".data), PyVal.none, PyVal.int 1625948160⟩, 1) ∧
    (parse_minversion_key ["0a6d696e76657273696f6e".data, "60ea0000".data]).lines +
      (parse_minversion_value ["60ea0000".data]).lines = 2 ∧
    (1 : Int) ≠ 2 :=
  ⟨rfl, rfl, by decide⟩

/-- C4 counterexample: two well-formed (timestamp, keymeta) pairs yield 2
entries but a reported consumption of 2, not 2 x 2 = 4 (the source returns
the literal `{"lines": 2, ...}` regardless of how many pairs were read);
and a run of zero entries stopped by a non-`keymeta` line reports 2, not
the minimum 1 the claim states. -/
theorem C4_pool_counterexample :
    parse_pool_value ["0000000000000000".data, "076b65796d657461".data,
        "0000000000000000".data, "076b65796d657461".data] =
      ⟨2, PyVal.list
        [PyVal.dict [("name", PyVal.str ("keymeta".data)),
          ("timestamp", PyVal.int 0), ("public_key", PyVal.str [])],
         PyVal.dict [("name", PyVal.str ("keymeta".data)),
          ("timestamp", PyVal.int 0), ("public_key", PyVal.str [])]]⟩ ∧
    (2 : Nat) ≠ 2 * 2 ∧
    parse_pool_value ["0000000000000000".data, "00".data] = ⟨2, PyVal.list []⟩ ∧
    (2 : Nat) ≠ 1 :=
  ⟨rfl, by decide, rfl, by decide⟩

/-- C4 (amended): on a line sequence made of N well-formed (timestamp-line,
keymeta-line) pairs followed either by fewer than 2 lines or by a pair whose
second line decodes to a non-`keymeta` name, the pool value-decoder returns
exactly the N KeyPoolEntry values in input order, does not turn the stopping
pair into an entry, and reports `consumed_lines = 2` on every such
non-raising run regardless of N (1 is reported only when an internal
exception occurs, and the claimed `2 x N` for no N other than 1). -/
theorem C4_pool_run (ps : List (PyS × PyS)) (tail : List PyS)
    (hps : ∀ p ∈ ps, wfPair p.1 p.2 = true)
    (htail : tail.length ≤ 1 ∨
      ∃ ts km rest2, tail = ts :: km :: rest2 ∧ stopPair km = true) :
    parse_pool_value (pairsFlatten ps ++ tail) =
      ⟨2, PyVal.list (ps.map (fun p => poolEntryOf p.1 p.2))⟩ := by
  suffices h : poolLoop (pairsFlatten ps ++ tail) =
      some (ps.map (fun p => poolEntryOf p.1 p.2)) by
    unfold parse_pool_value
    rw [h]
  revert hps
  induction ps with
  | nil =>
    intro hps
    simp only [pairsFlatten, List.nil_append, List.map_nil]
    rcases htail with hlen | ⟨ts, km, rest2, rfl, hstop⟩
    · cases tail with
      | nil => rfl
      | cons a t =>
        cases t with
        | nil => rfl
        | cons b t2 =>
          simp only [List.length_cons] at hlen
          omega
    · unfold stopPair at hstop
      cases hn : pyIntHex (pySlice (pyStrip km) 0 2) with
      | none =>
        rw [hn] at hstop
        exact absurd hstop (by simp)
      | some n =>
        rw [hn] at hstop
        have hne : ¬(hex_to_ascii (pySlice (pyStrip km) 2 (n * 2 + 2)) =
            some ("keymeta".data)) := by
          simpa using hstop
        unfold poolLoop
        simp only [hn]
        rw [if_neg hne]
  | cons p ps ih =>
    intro hps
    obtain ⟨ts, km⟩ := p
    have hwf := hps (ts, km) (List.mem_cons_self _ _)
    dsimp only at hwf
    simp only [pairsFlatten, List.cons_append, List.map_cons]
    unfold wfPair at hwf
    cases hn : pyIntHex (pySlice (pyStrip km) 0 2) with
    | none =>
      rw [hn] at hwf
      exact absurd hwf (by simp)
    | some n =>
      rw [hn] at hwf
      simp only [Bool.and_eq_true] at hwf
      obtain ⟨hname, hts⟩ := hwf
      have hnameP : hex_to_ascii (pySlice (pyStrip km) 2 (n * 2 + 2)) =
          some ("keymeta".data) := of_decide_eq_true hname
      unfold poolLoop
      simp only [hn]
      rw [if_pos hnameP]
      cases hfh : pyFromhex (pySlice (pyStrip ts) 0 16) with
      | none =>
        rw [hfh] at hts
        exact absurd hts (by simp)
      | some raw =>
        simp only [hfh]
        rw [ih (fun q hq => hps q (List.mem_cons_of_mem _ hq))]
        unfold poolEntryOf
        simp only [hn, hfh, Option.getD_some]

/-- C4 witness: one well-formed pair with no following lines produces exactly
its one KeyPoolEntry with a reported consumption of 2. -/
theorem C4_pool_run_witness :
    parse_pool_value ["0000000000000000".data, "076b65796d657461".data] =
      ⟨2, PyVal.list [poolEntryOf ("0000000000000000".data) ("076b65796d657461".data)]⟩ :=
  C4_pool_run [(("0000000000000000".data), ("076b65796d657461".data))] []
    (by decide) (Or.inl (by decide))

/-- C5 counterexample: the line `0772656365697665` decodes to the name
`receive`, which is not in the registry; the loop emits one entry and
advances by 1, but the entry records `record_name = "receive"`, not `None`
as the claim states. -/
theorem C5_skip_counterexample :
    analyzeIter ["0772656365697665".data] 0 =
      Except.ok (⟨PyVal.none, some ("receive".data), PyVal.none, PyVal.none⟩, 1) ∧
    (some ("receive".data) : Option PyS) ≠ Option.none :=
  ⟨rfl, by simp⟩

/-- C5 (amended): for a cursor position whose line yields no decoded name, the
loop emits one all-`None` entry and advances by exactly 1; for a position
whose name decodes to a string absent from the registry, the loop emits one
entry whose `key`, `value` and `parsed_value` are `None` but whose
`key_ascii` is that string (not `None`), and advances by exactly 1.  (A line
on which `parse_key_name` raises instead halts the decode — see C2.) -/
theorem C5_unrecognized_skip (lines : List PyS) (i : Int) (li : PyS)
    (hidx : pyIndex lines i = some li) :
    (parse_key_name (pyStrip li) = Except.ok Option.none →
      analyzeIter lines i =
        Except.ok (⟨PyVal.none, Option.none, PyVal.none, PyVal.none⟩, i + 1)) ∧
    (∀ s, parse_key_name (pyStrip li) = Except.ok (some s) →
      registryLookup s = Option.none →
      analyzeIter lines i =
        Except.ok (⟨PyVal.none, some s, PyVal.none, PyVal.none⟩, i + 1)) := by
  constructor
  · intro hkn
    unfold analyzeIter
    simp only [hidx, hkn]
  · intro s hkn hreg
    unfold analyzeIter
    simp only [hidx, hkn, hreg]

/-- C5 witness: the no-name case on the line `60ea0000` (its sliced name bytes
do not decode to printable text) and the unregistered-name case on the line
`0772656365697665` (name `receive`). -/
theorem C5_unrecognized_skip_witness :
    analyzeIter ["60ea0000".data] 0 =
      Except.ok (⟨PyVal.none, Option.none, PyVal.none, PyVal.none⟩, 1) ∧
    analyzeIter ["0772656365697665".data] 0 =
      Except.ok (⟨PyVal.none, some ("receive".data), PyVal.none, PyVal.none⟩, 1) :=
  ⟨(C5_unrecognized_skip ["60ea0000".data] 0 ("60ea0000".data) rfl).1 rfl,
   (C5_unrecognized_skip ["0772656365697665".data] 0 ("0772656365697665".data) rfl).2
     ("receive".data) rfl rfl⟩

/-- C6 counterexample: an internal exception in `parse_pool_value` (here: the
length prefix `yy` of the second line does not parse) is caught, but the
fallback value is the empty list, not `None` as the claim states for every
decoder. -/
theorem C6_pool_fallback_counterexample :
    parse_pool_value ["xx".data, "yy".data] = ⟨1, PyVal.list []⟩ ∧
    PyVal.list [] ≠ PyVal.none :=
  ⟨rfl, fun h => PyVal.noConfusion h⟩

/-- C6 (amended): every typed decoder is total and reports a line-consumption
count of at least 1 on every input (1 everywhere except the non-raising pool
path, which reports 2); when its `try` body fails, the fallback result is
`{lines: 1, value: None}` for `parse_key_key`, `parse_key_value`,
`parse_minversion_value` and `parse_pool_key`, and `{lines: 1, value: []}`
(the empty list, not `None`) for `parse_pool_value`.  No fault ever reaches
the orchestrating loop from a decoder. -/
theorem C6_decoder_totality (lines : List PyS) :
    ((parse_key_key lines).lines = 1 ∧ (parse_key_value lines).lines = 1 ∧
     (parse_minversion_key lines).lines = 1 ∧ (parse_minversion_value lines).lines = 1 ∧
     (parse_pool_key lines).lines = 1 ∧
     ((parse_pool_value lines).lines = 1 ∨ (parse_pool_value lines).lines = 2)) ∧
    (parse_key_key_try lines = Option.none → parse_key_key lines = ⟨1, PyVal.none⟩) ∧
    (parse_key_value_try lines = Option.none → parse_key_value lines = ⟨1, PyVal.none⟩) ∧
    (parse_minversion_value_try lines = Option.none →
      parse_minversion_value lines = ⟨1, PyVal.none⟩) ∧
    (parse_pool_key_try lines = Option.none → parse_pool_key lines = ⟨1, PyVal.none⟩) ∧
    (poolLoop lines = Option.none → parse_pool_value lines = ⟨1, PyVal.list []⟩) := by
  refine ⟨⟨?_, ?_, rfl, ?_, ?_, ?_⟩, ?_, ?_, ?_, ?_, ?_⟩
  · unfold parse_key_key
    split <;> rfl
  · unfold parse_key_value
    split <;> rfl
  · unfold parse_minversion_value
    split <;> rfl
  · unfold parse_pool_key
    split <;> rfl
  · unfold parse_pool_value
    split
    · exact Or.inr rfl
    · exact Or.inl rfl
  · intro h
    unfold parse_key_key
    rw [h]
  · intro h
    unfold parse_key_value
    rw [h]
  · intro h
    unfold parse_minversion_value
    rw [h]
  · intro h
    unfold parse_pool_key
    rw [h]
  · intro h
    unfold parse_pool_value
    rw [h]

/-- C6 witness: the amended fallback facts instantiated on the two-line input
`zz`, `zz`, on which every `try` body fails. -/
theorem C6_decoder_totality_witness :
    parse_key_key ["zz".data, "zz".data] = ⟨1, PyVal.none⟩ ∧
    parse_key_value ["zz".data, "zz".data] = ⟨1, PyVal.none⟩ ∧
    parse_minversion_value ["zz".data, "zz".data] = ⟨1, PyVal.none⟩ ∧
    parse_pool_key ["zz".data, "zz".data] = ⟨1, PyVal.none⟩ ∧
    parse_pool_value ["zz".data, "zz".data] = ⟨1, PyVal.list []⟩ :=
  ⟨(C6_decoder_totality ["zz".data, "zz".data]).2.1 rfl,
   (C6_decoder_totality ["zz".data, "zz".data]).2.2.1 rfl,
   (C6_decoder_totality ["zz".data, "zz".data]).2.2.2.1 rfl,
   (C6_decoder_totality ["zz".data, "zz".data]).2.2.2.2.1 rfl,
   (C6_decoder_totality ["zz".data, "zz".data]).2.2.2.2.2 rfl⟩

/-- C7: the minversion value-decoder reads the ASCII text of the line as a
base-16 integer literal: `60ea0000` yields 0x60ea0000 = 1625948160 with 1
consumed line; it always consumes 1 line; a line whose stripped text does
not parse as a base-16 literal yields value `None`; and the result differs
from the little-endian reading of the hex-decoded bytes (which would be
60000). -/
theorem C7_minversion_base16 :
    parse_minversion_value ["60ea0000".data] = ⟨1, PyVal.int 1625948160⟩ ∧
    (∀ lines : List PyS, (parse_minversion_value lines).lines = 1) ∧
    (∀ (l0 : PyS) (rest : List PyS), pyIntHex (pyStrip l0) = Option.none →
      parse_minversion_value (l0 :: rest) = ⟨1, PyVal.none⟩) ∧
    (1625948160 : Int) ≠ (leNat ((pyFromhex ("60ea0000".data)).getD []) : Int) := by
  refine ⟨rfl, ?_, ?_, by decide⟩
  · intro lines
    unfold parse_minversion_value
    split <;> rfl
  · intro l0 rest h
    simp only [parse_minversion_value, parse_minversion_value_try, List.head?_cons, h]

/-- C7 witness: the failure case instantiated on the unparseable line `zz`,
and the consumption count on the empty input. -/
theorem C7_minversion_base16_witness :
    parse_minversion_value ["zz".data] = ⟨1, PyVal.none⟩ ∧
    (parse_minversion_value ([] : List PyS)).lines = 1 :=
  ⟨C7_minversion_base16.2.2.1 ("zz".data) [] rfl,
   C7_minversion_base16.2.1 []⟩

/-- C8: round-trip for recognized keys.  For every `key` record line framed as
the length-prefixed name `key` (`03` `6b6579`), the public-key length byte
`21`, and the lowercase hex of a valid compressed public key, the key
decoder returns exactly that original hex string (the compressed
re-serialization of the parsed point equals the input bytes) and reports 1
consumed line.  The secp256k1 point primitive is modelled from the spec
(see `parsePublicKeyPoint`). -/
theorem C8_key_roundtrip (rest : List PyS) (pk : List Nat)
    (hv : isCompressedPubKey pk = true) :
    parse_key_key (("036b657921".data ++ bytesToHexLower pk) :: rest) =
      ⟨1, PyVal.str (bytesToHexLower pk)⟩ := by
  have hb : ∀ b ∈ pk, b < 256 := by
    unfold isCompressedPubKey at hv
    simp only [Bool.and_eq_true] at hv
    intro b hbmem
    exact of_decide_eq_true (List.all_eq_true.mp hv.2 b hbmem)
  have hpre : ∀ c ∈ "036b657921".data, isPyWs c = false := by decide
  have hnows : ∀ c ∈ ("036b657921".data ++ bytesToHexLower pk), isPyWs c = false := by
    intro c hc
    rcases List.mem_append.mp hc with h1 | h2
    · exact hpre c h1
    · obtain ⟨m, hm, rfl⟩ := mem_bytesToHexLower pk hb c h2
      exact hexDigitChar_not_ws m hm
  have hstrip := pyStrip_of_no_ws ("036b657921".data ++ bytesToHexLower pk) hnows
  have h2 : pySlice ("036b657921".data ++ bytesToHexLower pk) 0 2 = "03".data := by
    rw [show (2 : Int) = ((2 : Nat) : Int) from rfl, pySlice_zero]
    rfl
  have h3 : pySliceFrom ("036b657921".data ++ bytesToHexLower pk) ((3 : Int) * 2 + 4) =
      bytesToHexLower pk := by
    rw [show ((3 : Int) * 2 + 4) = ((10 : Nat) : Int) from by norm_num, pySliceFrom_ofNat]
    rfl
  unfold parse_key_key parse_key_key_try
  simp only [List.head?_cons, hstrip, h2,
    show pyIntHex ("03".data) = some 3 from rfl]
  simp only [h3, pyFromhex_bytesToHexLower pk hb, parsePublicKeyPoint, hv, if_true,
    serializeCompressed]

/-- C8 witness: the round trip instantiated on the first compressed public key
of the example dump bundled with the repository. -/
theorem C8_key_roundtrip_witness :
    parse_key_key [("036b657921".data ++ bytesToHexLower
      [0x02, 0x10, 0x93, 0x3e, 0xea, 0xe2, 0xf5, 0xcc, 0x26, 0xa7, 0x93, 0x8f, 0xf2,
       0xe1, 0xa9, 0x50, 0x2b, 0x41, 0xad, 0xdb, 0xa6, 0xc7, 0xf4, 0x1c, 0xfe, 0xdc,
       0xa0, 0xf8, 0xa7, 0x7d, 0xcd, 0x0a, 0x3e])] =
      ⟨1, PyVal.str (bytesToHexLower
        [0x02, 0x10, 0x93, 0x3e, 0xea, 0xe2, 0xf5, 0xcc, 0x26, 0xa7, 0x93, 0x8f, 0xf2,
         0xe1, 0xa9, 0x50, 0x2b, 0x41, 0xad, 0xdb, 0xa6, 0xc7, 0xf4, 0x1c, 0xfe, 0xdc,
         0xa0, 0xf8, 0xa7, 0x7d, 0xcd, 0x0a, 0x3e])⟩ :=
  C8_key_roundtrip []
    [0x02, 0x10, 0x93, 0x3e, 0xea, 0xe2, 0xf5, 0xcc, 0x26, 0xa7, 0x93, 0x8f, 0xf2,
     0xe1, 0xa9, 0x50, 0x2b, 0x41, 0xad, 0xdb, 0xa6, 0xc7, 0xf4, 0x1c, 0xfe, 0xdc,
     0xa0, 0xf8, 0xa7, 0x7d, 0xcd, 0x0a, 0x3e] (by decide)

/-- C9: `hex_to_ascii` returns `None` when the input is not an even run of hex
digits; otherwise it returns the decoded text with surrounding whitespace
stripped exactly when every decoded character is printable ASCII (0x20-0x7E)
or one of newline, tab, carriage return, and `None` when any decoded
character falls outside that set. -/
theorem C9_hex_to_text_spec (s : PyS) :
    (pyUnhexlify s = Option.none → hex_to_ascii s = Option.none) ∧
    (∀ bs, pyUnhexlify s = some bs →
      ((∀ c ∈ utf8DecodeIgnore bs, isAllowedAscii c = true) →
        hex_to_ascii s = some (pyStrip (utf8DecodeIgnore bs))) ∧
      ((∃ c ∈ utf8DecodeIgnore bs, isAllowedAscii c = false) →
        hex_to_ascii s = Option.none)) := by
  constructor
  · intro h
    simp only [hex_to_ascii, h]
  · intro bs hbs
    constructor
    · intro hall
      simp only [hex_to_ascii, hbs]
      rw [if_pos (List.all_eq_true.mpr (fun c hc => by simp [hall c hc]))]
    · intro hex
      obtain ⟨c, hc, hcf⟩ := hex
      simp only [hex_to_ascii, hbs]
      rw [if_neg]
      intro hall
      have := List.all_eq_true.mp hall c hc
      rw [hcf] at this
      exact Bool.noConfusion this

/-- C9 witness: a hex-malformed input, an all-printable input whose text is
stripped, and an input decoding to a non-printable character. -/
theorem C9_hex_to_text_witness :
    hex_to_ascii ("zz".data) = Option.none ∧
    hex_to_ascii ("4120".data) = some ("A".data) ∧
    hex_to_ascii ("00".data) = Option.none :=
  ⟨(C9_hex_to_text_spec ("zz".data)).1 rfl,
   ((C9_hex_to_text_spec ("4120".data)).2 [65, 32] rfl).1 (by decide),
   ((C9_hex_to_text_spec ("00".data)).2 [0] rfl).2 (by decide)⟩

/-- C10: on every normal return of `analyze_dump`, each entry of the results
list has its `value` field equal to `None` (decoded data only ever reaches
the `key` and `parsed_value` fields), and exactly one entry is appended per
cursor step, so the list holds one entry per input line. -/
theorem C10_value_field_none (dump : PyS) (es : List DumpEntry)
    (h : analyze_dump dump = some (Except.ok es)) :
    (∀ e ∈ es, e.value = PyVal.none) ∧ es.length = (pySplitlines dump).length := by
  have hres := analyzeLoopF_ok (pySplitlines dump).length (pySplitlines dump) 0 es h
  simpa using hres

/-- C10 witness: the invariant instantiated on the one-line dump `00`. -/
theorem C10_value_field_none_witness :
    (∀ e ∈ [(⟨PyVal.none, some [], PyVal.none, PyVal.none⟩ : DumpEntry)],
      e.value = PyVal.none) ∧
    ([(⟨PyVal.none, some [], PyVal.none, PyVal.none⟩ : DumpEntry)]).length =
      (pySplitlines ("00".data)).length :=
  C10_value_field_none ("00".data) _ rfl
